import Mathlib

/-!
Shallow embedding of the percentage-based Gate.io perpetual-futures trading
worker (`src/exchanges/gateio-futures.js`, the webhook handler and the
per-symbol Durable Object router), together with proofs of the spec's
testable properties.

Numeric fields coming back from the exchange API are modelled as `Option ℚ`:
`none` stands for an absent / null / non-numeric JSON field, `some q` for a
finite numeric value.  JS number arithmetic is idealized as exact rational
arithmetic; `Math.floor` is `Int.floor`, `Math.abs` is `abs`, `Math.min` is
`min`.
-/

namespace Trading

/-- `parseNumber(value, fallback)` from `gateio-futures.js`: a null, absent or
non-finite value yields the fallback, otherwise the parsed number. -/
def parseNumber (value : Option ℚ) (fallback : ℚ) : ℚ :=
  value.getD fallback

/-- `normalizePercentage(amount)`: rejects a null or non-positive amount, then
treats anything greater than 1 as a percent (divided by 100) and anything in
(0, 1] as an already-normalized fraction. -/
def normalizePercentage (amount : Option ℚ) : Except String ℚ :=
  match amount with
  | none => .error "Amount must be a positive numeric percentage"
  | some parsed =>
      if parsed ≤ 0 then .error "Amount must be a positive numeric percentage"
      else .ok (if 1 < parsed then parsed / 100 else parsed)

/-- The arithmetic core of `calculateContractsFromPercentage`: given the
already-resolved percentage, margin balance, leverage, mark price and
contract size, compute `notional = p·balance·leverage`,
`baseAmount = notional / markPrice`, `rawContracts = baseAmount / contractSize`
and floor the result. -/
def computeContracts (percentage marginBalance leverage markPrice contractSize : ℚ) : ℤ :=
  let notionalToAllocate := percentage * marginBalance * leverage
  let baseAmount := notionalToAllocate / markPrice
  let rawContracts := baseAmount / contractSize
  ⌊rawContracts⌋

/-- `convertBaseAmountToContracts(symbol, amount)` after the contract size has
been extracted from the contract info: errors when the contract size is not
positive, otherwise returns `Math.abs(Math.floor(amount / contractSize))`. -/
def convertBaseAmountToContracts (contractSize amount : ℚ) : Except String ℤ :=
  if contractSize ≤ 0 then .error "Unable to determine contract size"
  else .ok |⌊amount / contractSize⌋|

/-- Side of a trade, the `side` string argument of the JS helpers. -/
inductive Side
  | long
  | short
deriving DecidableEq, Repr

/-- Normalized position shape as produced by `getPosition` /
`normalizePositionPayload`: the size fields are always present numbers,
while mode and leverage fields may be absent. -/
structure Position where
  contract : String := ""
  long_size : ℚ := 0
  short_size : ℚ := 0
  size : ℚ := 0
  mode : Option String := none
  position_mode : Option String := none
  dual_mode : Option Bool := none
  long_leverage : Option ℚ := none
  short_leverage : Option ℚ := none
  leverage : Option ℚ := none
deriving DecidableEq, Repr

/-- Result of `resolveLeverageForSide`: a leverage value and the tag of the
source it was taken from. -/
structure LevRes where
  value : ℚ
  source : String
deriving DecidableEq, Repr

/-- First field of the list whose parsed value is positive (the shared
`for (const field of fields) { if (parseNumber(field) > 0) ... }` pattern). -/
def firstPositive : List (Option ℚ) → Option ℚ
  | [] => none
  | f :: rest =>
      let v := parseNumber f 0
      if 0 < v then some v else firstPositive rest

/-- The position half of `resolveLeverageForSide`: probe the per-side
position leverage field (`long_leverage` / `short_leverage`) then the generic
position `leverage` field, first positive value wins. -/
def positionLeverage (position : Option Position) (side : Side) : Option ℚ :=
  match position with
  | some pos =>
      firstPositive
        (match side with
         | Side.short => [pos.short_leverage, pos.leverage]
         | Side.long => [pos.long_leverage, pos.leverage])
  | none => none

/-- `resolveLeverageForSide(position, fallbackLeverage, fallbackSource, side)`:
a positive position-level leverage wins with source `'position'`;
otherwise a positive fallback with its source tag (defaulting to
`'account'`); otherwise `this.defaultLeverage || 1` with source
`'default'`. -/
def resolveLeverageForSide (position : Option Position) (fallbackLeverage : Option ℚ)
    (fallbackSource : Option String) (defaultLeverage : ℚ) (side : Side) : LevRes :=
  match positionLeverage position side with
  | some v => ⟨v, "position"⟩
  | none =>
      match fallbackLeverage with
      | some fl =>
          if 0 < fl then ⟨fl, fallbackSource.getD "account"⟩
          else ⟨if defaultLeverage = 0 then 1 else defaultLeverage, "default"⟩
      | none => ⟨if defaultLeverage = 0 then 1 else defaultLeverage, "default"⟩

/-- Account / margin-account payload fields probed by
`extractAccountLeverage`. -/
structure AccountPayload where
  leverage : Option ℚ := none
  cross_leverage_limit : Option ℚ := none
  position_leverage : Option ℚ := none
  long_leverage : Option ℚ := none
  short_leverage : Option ℚ := none
  max_leverage : Option ℚ := none
deriving DecidableEq, Repr

/-- `extractAccountLeverage(accountPayload)`: first positive candidate field,
else null. -/
def extractAccountLeverage (acct : Option AccountPayload) : Option ℚ :=
  match acct with
  | none => none
  | some a =>
      firstPositive
        [a.leverage, a.cross_leverage_limit, a.position_leverage,
         a.long_leverage, a.short_leverage, a.max_leverage]

/-- Leverage used by the open sizing path (`marketBuy` / `openShort`).
`handleWebhook` invokes `trader.marketBuy(symbol, amount, leverage, ctx)`, but
`GateIOFuturesTrader.marketBuy(symbol, amount)` declares only two parameters,
so the signal's leverage argument is dropped;
`calculateContractsFromPercentage` then resolves leverage from the margin
account (`fallbackLeverage = marginLeverage || null`,
`fallbackSource = marginLeverage ? 'margin' : null`), the position, and the
configured default via `resolveLeverageForSide`. -/
def openPathLeverage (signalLeverage : Option ℚ) (marginAccount : Option AccountPayload)
    (position : Option Position) (defaultLeverage : ℚ) (side : Side) : LevRes :=
  let marginLeverage := extractAccountLeverage marginAccount
  let fallbackSource : Option String :=
    match marginLeverage with
    | some _ => some "margin"
    | none => none
  resolveLeverageForSide position marginLeverage fallbackSource defaultLeverage side

/-- `determinePositionMode(position)`: the position's `mode`, else its
`position_mode`, else a boolean `dual_mode` translated to
`'dual_long_short'` / `'single'`, else the configured default mode. -/
def determinePositionMode (configMode : String) (position : Option Position) : String :=
  match position with
  | none => configMode
  | some pos =>
      match pos.mode with
      | some m => m
      | none =>
          match pos.position_mode with
          | some m => m
          | none =>
              match pos.dual_mode with
              | some b => if b then "dual_long_short" else "single"
              | none => configMode

/-- `getSideSize(position, side)` specialized to the normalized position shape
returned by `getPosition` (where `long_size` / `short_size` are always
present): the long size directly, the absolute value of the short size. -/
def getSideSize (position : Option Position) (side : Side) : ℚ :=
  match position with
  | none => 0
  | some pos =>
      match side with
      | Side.long => pos.long_size
      | Side.short => |pos.short_size|

/-- Outcome of a close action (`marketSell` / `closeShort`): the no-position
and no-action early returns carry no exchange order; `order signedSize
reduceOnly` is the order request actually submitted to
`/api/v4/futures/{settle}/orders`. -/
inductive CloseResult
  | noPosition
  | noAction
  | order (signedSize : ℚ) (reduceOnly : Bool)
deriving DecidableEq, Repr

/-- Decision logic of `marketSell(symbol, amount)` (long exit) once the
position has been fetched and the requested base amount converted to
`requestedContracts`: return `no_position` when there is no position or no
positive long size, `no_action` when the requested contract count is not
positive, otherwise submit a negative reduce-only order, clamped by
`Math.min(requestedContracts, Math.abs(longSize))` in dual mode. -/
def marketSellDecision (configMode : String) (position : Option Position)
    (requestedContracts : ℤ) : CloseResult :=
  let mode := determinePositionMode configMode position
  let isDualMode := mode = "dual_long_short"
  let longSize := getSideSize position Side.long
  if position = none ∨ longSize ≤ 0 then CloseResult.noPosition
  else if requestedContracts ≤ 0 then CloseResult.noAction
  else if isDualMode then
    CloseResult.order (-(min (requestedContracts : ℚ) |longSize|)) true
  else
    CloseResult.order (-(requestedContracts : ℚ)) true

/-- Decision logic of `closeShort(symbol, amount)` (short exit), symmetric to
`marketSellDecision` with a positive buy-to-close size. -/
def closeShortDecision (configMode : String) (position : Option Position)
    (requestedContracts : ℤ) : CloseResult :=
  let mode := determinePositionMode configMode position
  let isDualMode := mode = "dual_long_short"
  let shortSize := getSideSize position Side.short
  if position = none ∨ shortSize ≤ 0 then CloseResult.noPosition
  else if requestedContracts ≤ 0 then CloseResult.noAction
  else if isDualMode then
    CloseResult.order (min (requestedContracts : ℚ) |shortSize|) true
  else
    CloseResult.order (requestedContracts : ℚ) true

/-- One entry of a raw per-side positions array as returned by the venue. -/
structure RawEntry where
  size : Option ℚ := none
  mode : Option String := none
  dual_mode : Option Bool := none
deriving DecidableEq, Repr

/-- Raw aggregate position object as returned by the venue's single-position
endpoint. -/
structure RawObj where
  contract : Option String := none
  size : Option ℚ := none
  long_size : Option ℚ := none
  short_size : Option ℚ := none
  mode : Option String := none
  position_mode : Option String := none
  dual_mode : Option Bool := none
  long_leverage : Option ℚ := none
  short_leverage : Option ℚ := none
  leverage : Option ℚ := none
deriving DecidableEq, Repr

/-- The two raw position payload shapes handled by
`normalizePositionPayload`: an array of per-side entries or a single
aggregate object. -/
inductive RawPosition
  | arr (entries : List RawEntry)
  | obj (o : RawObj)
deriving DecidableEq, Repr

/-- Accumulator step of the `rawPosition.forEach` loop in the array branch of
`normalizePositionPayload`: positive sizes accumulate into the long leg,
negative sizes into the short leg, and the first available mode wins. -/
def arrStep (acc : ℚ × ℚ × Option String) (entry : RawEntry) : ℚ × ℚ × Option String :=
  let size := parseNumber entry.size 0
  let longSize := if 0 < size then acc.1 + size else acc.1
  let shortSize := if size < 0 then acc.2.1 + size else acc.2.1
  let mode :=
    match acc.2.2, entry.mode, entry.dual_mode with
    | some m, _, _ => some m
    | none, some em, _ => some em
    | none, none, some b => some (if b then "dual_long_short" else "single")
    | none, none, none => none
  (longSize, shortSize, mode)

/-- `normalizePositionPayload(rawPosition, contract)` for a non-null payload:
the array shape is folded into long/short legs, the object shape keeps a
positive `long_size` (else a positive aggregate `size`, else 0) and a
negative `short_size` (flipping a positive one, else a negative aggregate
`size`, else 0), and `size` is recomputed as `long_size + short_size`. -/
def normalizePositionPayload (raw : RawPosition) (contract : String) : Position :=
  match raw with
  | RawPosition.arr entries =>
      let folded := entries.foldl arrStep (0, 0, none)
      { contract := contract
        long_size := folded.1
        short_size := folded.2.1
        size := folded.1 + folded.2.1
        mode := folded.2.2 }
  | RawPosition.obj o =>
      let parsedSize := parseNumber o.size 0
      let longSize0 := parseNumber o.long_size 0
      let longSize := if longSize0 ≤ 0 then (if 0 < parsedSize then parsedSize else 0) else longSize0
      let shortSize0 := parseNumber o.short_size 0
      let shortSize :=
        if shortSize0 = 0 then (if parsedSize < 0 then parsedSize else 0)
        else if 0 < shortSize0 then -shortSize0
        else shortSize0
      { contract := o.contract.getD contract
        long_size := longSize
        short_size := shortSize
        size := longSize + shortSize
        mode := o.mode
        position_mode := o.position_mode
        dual_mode := o.dual_mode
        long_leverage := o.long_leverage
        short_leverage := o.short_leverage
        leverage := o.leverage }

/-- Accumulator step of the `reduce` in the list-endpoint fallback of
`getPosition`: positive sizes into `acc.long`, negative into `acc.short`. -/
def combineStep (acc : ℚ × ℚ) (pos : RawEntry) : ℚ × ℚ :=
  let size := parseNumber pos.size 0
  if 0 < size then (acc.1 + size, acc.2)
  else if size < 0 then (acc.1, acc.2 + size)
  else acc

/-- Position object built by the list-endpoint fallback of `getPosition` from
the entries matching the requested contract. -/
def listFallbackPosition (contract : String) (entries : List RawEntry) : Position :=
  let combined := entries.foldl combineStep (0, 0)
  { contract := contract
    long_size := combined.1
    short_size := combined.2
    size := combined.1 + combined.2 }

/-- Instrument key used to address the per-symbol executor:
`executeTradeViaDurableObject` derives it as `payload.symbol.toUpperCase()`
and routes via `idFromName(symbolKey)`. -/
def symbolKeyOf (symbol : String) : String :=
  symbol.toUpper

/-- Modelled from the spec: the serializing mechanism itself is the Cloudflare
Durable Object runtime (one `SymbolExecutor` instance per `idFromName` key,
processing its requests one at a time), which is not code of this repository;
`src` only contains the routing (`executeTradeViaDurableObject`) and the
object body (`SymbolExecutor.fetch`).  Per spec §4.3/§5 the executor admits
signals per instrument key, runs at most one task per key at a time, and
starts queued tasks in FIFO admission order.  `Ev` is one observable event of
that system: a signal being admitted to key `k`'s queue, its execution window
opening, or its execution window closing. -/
inductive Ev
  | arrive (k : String) (t : ℕ)
  | start (k : String) (t : ℕ)
  | finish (k : String) (t : ℕ)
deriving DecidableEq, Repr

/-- Modelled from the spec (see `Ev`): state of the per-key executor — for
each instrument key, the FIFO queue of admitted-but-not-started tasks, the at
most one currently running task, and the list of completed tasks in
completion order. -/
structure ExecState where
  queue : String → List ℕ
  running : String → Option ℕ
  done : String → List ℕ

/-- Initial executor state: nothing queued, running or completed. -/
def initState : ExecState :=
  ⟨fun _ => [], fun _ => none, fun _ => []⟩

/-- Modelled from the spec (see `Ev`): one transition of the per-key executor.
A task may start only when its key is idle and it is at the head of the key's
queue; a task may finish only while it is the one running on its key;
admission always appends to the key's queue.  An event whose precondition
fails is not a possible behaviour (`none`). -/
def step (s : ExecState) : Ev → Option ExecState
  | Ev.arrive k t => some { s with queue := Function.update s.queue k (s.queue k ++ [t]) }
  | Ev.start k t =>
      match s.running k, s.queue k with
      | none, t' :: rest =>
          if t' = t then
            some { s with
              queue := Function.update s.queue k rest
              running := Function.update s.running k (some t) }
          else none
      | _, _ => none
  | Ev.finish k t =>
      match s.running k with
      | some t' =>
          if t' = t then
            some { s with
              running := Function.update s.running k none
              done := Function.update s.done k (s.done k ++ [t]) }
          else none
      | _ => none

/-- Run a trace of events from a state; `none` if some event violates its
precondition. -/
def run (s : ExecState) : List Ev → Option ExecState
  | [] => some s
  | e :: es => (step s e).bind fun s' => run s' es

/-- Tasks admitted for key `k` in trace order. -/
def admissions (k : String) : List Ev → List ℕ
  | [] => []
  | Ev.arrive k' t :: es => if k' = k then t :: admissions k es else admissions k es
  | _ :: es => admissions k es

/-- Key of an event. -/
def Ev.key : Ev → String
  | Ev.arrive k _ => k
  | Ev.start k _ => k
  | Ev.finish k _ => k

/-- C2: for every valid open sizing input (all factors positive), the
computed contract count equals `⌊p · available · leverage / markPrice /
contractSize⌋`, and the spec's example `p = 0.10`, `available = 1000`,
`leverage = 5`, `markPrice = 100`, `contractSize = 1` yields 5 contracts. -/
theorem c2_contracts_formula (p a l m c : ℚ)
    (hp : 0 < p) (ha : 0 < a) (hl : 0 < l) (hm : 0 < m) (hc : 0 < c) :
    computeContracts p a l m c = ⌊p * a * l / m / c⌋ ∧
    computeContracts (1/10) 1000 5 100 1 = 5 := by
  constructor
  · rfl
  · norm_num [computeContracts]

/-- Witness for C2 at the spec's example input. -/
theorem c2_contracts_formula_witness :
    computeContracts (1/10) 1000 5 100 1 = 5 :=
  (c2_contracts_formula (1/10) 1000 5 100 1 (by norm_num) (by norm_num) (by norm_num)
    (by norm_num) (by norm_num)).2

/-- C9: flooring only under-allocates — the notional of the computed order,
`contracts · contractSize · markPrice`, never exceeds the allocated margin
`p · available · leverage`. -/
theorem c9_notional_within_allocation (p a l m c : ℚ)
    (hp : 0 < p) (ha : 0 < a) (hl : 0 < l) (hm : 0 < m) (hc : 0 < c) :
    (computeContracts p a l m c : ℚ) * c * m ≤ p * a * l := by
  have h1 : (computeContracts p a l m c : ℚ) ≤ p * a * l / m / c := by
    unfold computeContracts
    exact Int.floor_le _
  calc (computeContracts p a l m c : ℚ) * c * m
      ≤ (p * a * l / m / c) * c * m := by
        exact mul_le_mul_of_nonneg_right (mul_le_mul_of_nonneg_right h1 hc.le) hm.le
    _ = p * a * l := by field_simp; ring

/-- Witness for C9 at the spec's example input. -/
theorem c9_notional_within_allocation_witness :
    (computeContracts (1/10) 1000 5 100 1 : ℚ) * 1 * 100 ≤ 1/10 * 1000 * 5 :=
  c9_notional_within_allocation (1/10) 1000 5 100 1 (by norm_num) (by norm_num) (by norm_num)
    (by norm_num) (by norm_num)

/-- Counterexample to C3 as stated: for the allocation `a = 1/200 ∈ (0,1]`,
`normalizePercentage a = a` but `normalizePercentage (a · 100) = 1/2 ≠ a` —
an allocation at or below 1/100 does not normalize to the same fraction in
both forms. -/
theorem c3_counterexample :
    normalizePercentage (some (1/200)) = Except.ok (1/200 : ℚ) ∧
    normalizePercentage (some ((1/200 : ℚ) * 100)) = Except.ok (1/2 : ℚ) ∧
    (1/200 : ℚ) ≠ 1/2 := by
  refine ⟨?_, ?_, by norm_num⟩ <;> norm_num [normalizePercentage]

/-- C3 (amended): for every allocation `a` with `1/100 < a ≤ 1`, the fraction
form and the percentage form normalize to the same fraction:
`normalizePercentage a = normalizePercentage (a · 100)`. -/
theorem c3_normalize_agrees (a : ℚ) (h1 : 1/100 < a) (h2 : a ≤ 1) :
    normalizePercentage (some a) = normalizePercentage (some (a * 100)) := by
  have ha : 0 < a := lt_trans (by norm_num) h1
  have h3 : 1 < a * 100 := by linarith
  have h0 : ¬ a * 100 ≤ 0 := by nlinarith
  have lhs : normalizePercentage (some a) = Except.ok a := by
    simp [normalizePercentage, ha.not_le, h2.not_lt]
  have rhs : normalizePercentage (some (a * 100)) = Except.ok (a * 100 / 100) := by
    simp [normalizePercentage, h0, h3]
  rw [lhs, rhs]
  congr 1
  ring

/-- Witness for the amended C3 at `a = 1/10`. -/
theorem c3_normalize_agrees_witness :
    normalizePercentage (some (1/10)) = normalizePercentage (some ((1/10 : ℚ) * 100)) :=
  c3_normalize_agrees (1/10) (by norm_num) (by norm_num)

/-- Counterexample to C8 as stated: at `baseAmount = -(3/2)` and
`contractSize = 1` the code computes `|⌊-(3/2)⌋| = 2`, while the claim's
formula `⌊|baseAmount| / contractSize⌋` gives 1. -/
theorem c8_counterexample :
    convertBaseAmountToContracts 1 (-(3/2)) = Except.ok 2 ∧
    ⌊|(-(3/2) : ℚ)| / 1⌋ = 1 ∧ (2 : ℤ) ≠ 1 := by
  refine ⟨?_, ?_, by decide⟩
  · norm_num [convertBaseAmountToContracts]
  · rw [abs_neg, abs_of_nonneg (show (0:ℚ) ≤ 3/2 by norm_num)]
    norm_num

/-- C8 (amended): for every positive contract size the close-size conversion
returns `|⌊baseAmount / contractSize⌋|`, which is always non-negative, and
for every non-negative base amount this equals
`⌊|baseAmount| / contractSize⌋`. -/
theorem c8_close_conversion (contractSize amount : ℚ) (hcs : 0 < contractSize) :
    convertBaseAmountToContracts contractSize amount = Except.ok |⌊amount / contractSize⌋| ∧
    0 ≤ |⌊amount / contractSize⌋| ∧
    (0 ≤ amount → |⌊amount / contractSize⌋| = ⌊|amount| / contractSize⌋) := by
  refine ⟨?_, abs_nonneg _, ?_⟩
  · simp [convertBaseAmountToContracts, not_le.mpr hcs]
  · intro hamt
    have hq : 0 ≤ amount / contractSize := div_nonneg hamt hcs.le
    rw [abs_of_nonneg (Int.floor_nonneg.mpr hq), abs_of_nonneg hamt]

/-- Witness for the amended C8 at `contractSize = 1`, `baseAmount = 3/2`. -/
theorem c8_close_conversion_witness :
    convertBaseAmountToContracts 1 (3/2) = Except.ok |⌊((3/2 : ℚ)) / 1⌋| ∧
    |⌊((3/2 : ℚ)) / 1⌋| = ⌊|(3/2 : ℚ)| / 1⌋ :=
  ⟨(c8_close_conversion 1 (3/2) (by norm_num)).1,
   (c8_close_conversion 1 (3/2) (by norm_num)).2.2 (by norm_num)⟩

/-- C5: whenever the position payload carries a positive per-side leverage,
`resolveLeverageForSide` returns that value with source `'position'`,
regardless of any positive account-level fallback. -/
theorem c5_position_leverage_wins (pos : Position) (sideLev fb dflt : ℚ)
    (fbSrc : Option String) (side : Side)
    (hside : (match side with
              | Side.long => pos.long_leverage
              | Side.short => pos.short_leverage) = some sideLev)
    (hpos : 0 < sideLev) (hfb : 0 < fb) :
    resolveLeverageForSide (some pos) (some fb) fbSrc dflt side =
      ⟨sideLev, "position"⟩ := by
  cases side <;>
    simp_all [resolveLeverageForSide, positionLeverage, firstPositive, parseNumber]

/-- Witness for C5: position leverage 3 beats account fallback 9. -/
theorem c5_position_leverage_wins_witness :
    resolveLeverageForSide (some { long_leverage := some 3 }) (some 9)
      (some "margin") 1 Side.long = ⟨3, "position"⟩ :=
  c5_position_leverage_wins { long_leverage := some 3 } 3 9 1 (some "margin") Side.long
    rfl (by norm_num) (by norm_num)

/-- Counterexample to C4 as stated: a signal leverage override of 7 does not
take precedence — with a position-level leverage of 2 the open sizing path
resolves leverage 2, because `marketBuy(symbol, amount)` drops the third
argument passed by `handleWebhook`. -/
theorem c4_counterexample :
    (openPathLeverage (some 7) none (some { long_leverage := some 2 }) 1 Side.long).value = 2 ∧
    (2 : ℚ) ≠ 7 := by
  constructor
  · rfl
  · norm_num

/-- C4 (amended): the open sizing path ignores the signal's leverage override
entirely — the resolved leverage is independent of it, equals the
position/margin/default fallback chain, and its source is always one of
`'position'`, `'margin'`, `'default'` (never the signal). -/
theorem c4_signal_leverage_ignored (l₁ l₂ : Option ℚ) (acct : Option AccountPayload)
    (pos : Option Position) (dflt : ℚ) (side : Side) :
    openPathLeverage l₁ acct pos dflt side = openPathLeverage l₂ acct pos dflt side ∧
    openPathLeverage l₁ acct pos dflt side =
      resolveLeverageForSide pos (extractAccountLeverage acct)
        (match extractAccountLeverage acct with
         | some _ => some "margin"
         | none => none) dflt side ∧
    ((openPathLeverage l₁ acct pos dflt side).source = "position" ∨
     (openPathLeverage l₁ acct pos dflt side).source = "margin" ∨
     (openPathLeverage l₁ acct pos dflt side).source = "default") := by
  refine ⟨rfl, rfl, ?_⟩
  unfold openPathLeverage resolveLeverageForSide
  cases positionLeverage pos side with
  | some v => exact Or.inl rfl
  | none =>
      cases hml : extractAccountLeverage acct with
      | none => exact Or.inr (Or.inr rfl)
      | some fl =>
          by_cases hfl : 0 < fl
          · exact Or.inr (Or.inl (by simp [hfl]))
          · exact Or.inr (Or.inr (by simp [hfl]))

/-- C6: in dual position mode, a close for more than the open side size is
clamped — the submitted reduce-only order's magnitude is
`min(requested, sideSize)` and never exceeds the side size, for both the
long exit (`marketSell`) and the short exit (`closeShort`). -/
theorem c6_dual_mode_close_clamp (configMode : String) (pos : Position) (r : ℤ)
    (hmode : determinePositionMode configMode (some pos) = "dual_long_short")
    (hr : 0 < r) :
    (0 < pos.long_size →
      marketSellDecision configMode (some pos) r =
        CloseResult.order (-(min (r : ℚ) pos.long_size)) true ∧
      min (r : ℚ) pos.long_size ≤ pos.long_size) ∧
    (0 < |pos.short_size| →
      closeShortDecision configMode (some pos) r =
        CloseResult.order (min (r : ℚ) |pos.short_size|) true ∧
      min (r : ℚ) |pos.short_size| ≤ |pos.short_size|) := by
  constructor
  · intro hlong
    refine ⟨?_, min_le_right _ _⟩
    simp [marketSellDecision, getSideSize, hmode, not_le.mpr hlong, not_le.mpr hr,
      abs_of_pos hlong]
  · intro hshort
    refine ⟨?_, min_le_right _ _⟩
    simp [closeShortDecision, getSideSize, hmode, not_le.mpr hshort, not_le.mpr hr,
      abs_abs]

/-- Witness for C6: the spec's example — long size 3 (and short size 3),
requested 10, dual mode — yields signed sizes −3 and +3. -/
theorem c6_dual_mode_close_clamp_witness :
    marketSellDecision "dual_long_short"
      (some { long_size := 3, short_size := -3, size := 0 }) 10 =
      CloseResult.order (-3) true ∧
    closeShortDecision "dual_long_short"
      (some { long_size := 3, short_size := -3, size := 0 }) 10 =
      CloseResult.order 3 true := by
  have h := c6_dual_mode_close_clamp "dual_long_short"
    { long_size := 3, short_size := -3, size := 0 } 10 rfl (by norm_num)
  constructor
  · have h1 := (h.1 (by norm_num)).1
    rw [h1]
    norm_num
  · have h2 := (h.2 (by norm_num)).1
    rw [h2]
    norm_num

/-- C7: a close action with no fetched position, or a non-positive size on
the requested side, returns the `no_position` result — which carries no
exchange order — for both `marketSell` and `closeShort`. -/
theorem c7_no_position_no_order (configMode : String) (position : Option Position) (r : ℤ) :
    ((position = none ∨ getSideSize position Side.long ≤ 0) →
      marketSellDecision configMode position r = CloseResult.noPosition) ∧
    ((position = none ∨ getSideSize position Side.short ≤ 0) →
      closeShortDecision configMode position r = CloseResult.noPosition) := by
  constructor
  · intro h
    simp only [marketSellDecision]
    rw [if_pos h]
  · intro h
    simp only [closeShortDecision]
    rw [if_pos h]

/-- Witness for C7: absent position and zero-size long leg. -/
theorem c7_no_position_no_order_witness :
    marketSellDecision "dual_long_short" none 5 = CloseResult.noPosition ∧
    closeShortDecision "dual_long_short"
      (some { long_size := 2, short_size := 0, size := 2 }) 5 =
      CloseResult.noPosition :=
  ⟨(c7_no_position_no_order "dual_long_short" none 5).1 (Or.inl rfl),
   (c7_no_position_no_order "dual_long_short"
      (some { long_size := 2, short_size := 0, size := 2 }) 5).2
     (Or.inr (by norm_num [getSideSize]))⟩

/-- The array-branch fold of `normalizePositionPayload` keeps the long leg
non-negative and the short leg non-positive. -/
lemma arrFold_signs (entries : List RawEntry) (acc : ℚ × ℚ × Option String)
    (hl : 0 ≤ acc.1) (hs : acc.2.1 ≤ 0) :
    0 ≤ (entries.foldl arrStep acc).1 ∧ (entries.foldl arrStep acc).2.1 ≤ 0 := by
  induction entries generalizing acc with
  | nil => exact ⟨hl, hs⟩
  | cons e es ih =>
      refine ih (arrStep acc e) ?_ ?_ <;>
        · simp only [arrStep]
          split_ifs with h <;> linarith

/-- The list-endpoint fallback fold of `getPosition` keeps the long leg
non-negative and the short leg non-positive. -/
lemma combineFold_signs (entries : List RawEntry) (acc : ℚ × ℚ)
    (hl : 0 ≤ acc.1) (hs : acc.2 ≤ 0) :
    0 ≤ (entries.foldl combineStep acc).1 ∧ (entries.foldl combineStep acc).2 ≤ 0 := by
  induction entries generalizing acc with
  | nil => exact ⟨hl, hs⟩
  | cons e es ih =>
      refine ih (combineStep acc e) ?_ ?_ <;>
        · simp only [combineStep]
          split_ifs with h h' <;> (try dsimp only) <;> linarith

/-- C10: every normalized position — from either raw payload shape, and from
the list-endpoint fallback of `getPosition` — satisfies the invariant
`long_size ≥ 0`, `short_size ≤ 0` and `size = long_size + short_size`. -/
theorem c10_normalized_position_invariant (raw : RawPosition) (contract : String)
    (entries : List RawEntry) :
    (0 ≤ (normalizePositionPayload raw contract).long_size ∧
     (normalizePositionPayload raw contract).short_size ≤ 0 ∧
     (normalizePositionPayload raw contract).size =
       (normalizePositionPayload raw contract).long_size +
       (normalizePositionPayload raw contract).short_size) ∧
    (0 ≤ (listFallbackPosition contract entries).long_size ∧
     (listFallbackPosition contract entries).short_size ≤ 0 ∧
     (listFallbackPosition contract entries).size =
       (listFallbackPosition contract entries).long_size +
       (listFallbackPosition contract entries).short_size) := by
  constructor
  · cases raw with
    | arr es =>
        obtain ⟨hl, hs⟩ := arrFold_signs es (0, 0, none) le_rfl le_rfl
        exact ⟨hl, hs, rfl⟩
    | obj o =>
        refine ⟨?_, ?_, rfl⟩ <;> simp only [normalizePositionPayload] <;>
          split_ifs <;> linarith
  · obtain ⟨hl, hs⟩ := combineFold_signs entries (0, 0) le_rfl le_rfl
    exact ⟨hl, hs, rfl⟩

/-- Tasks recorded for key `k`, in order: completed, then running, then
queued.  The executor never reorders this list. -/
def keyTrace (s : ExecState) (k : String) : List ℕ :=
  s.done k ++ ((s.running k).toList ++ s.queue k)

lemma run_cons (s : ExecState) (e : Ev) (es : List Ev) :
    run s (e :: es) = (step s e).bind fun s₁ => run s₁ es := rfl

lemma run_cons_some {s s' : ExecState} {e : Ev} {es : List Ev}
    (h : run s (e :: es) = some s') :
    ∃ s₁, step s e = some s₁ ∧ run s₁ es = some s' := by
  cases hs : step s e with
  | none => rw [run_cons, hs] at h; simp at h
  | some s₁ => rw [run_cons, hs] at h; exact ⟨s₁, rfl, h⟩

lemma run_append (es₁ es₂ : List Ev) : ∀ s : ExecState,
    run s (es₁ ++ es₂) = (run s es₁).bind fun s' => run s' es₂ := by
  induction es₁ with
  | nil => intro s; simp [run]
  | cons e es ih =>
      intro s
      rw [List.cons_append, run_cons, run_cons]
      cases step s e with
      | none => simp
      | some s₁ => simp [ih]

lemma step_start_some {s s' : ExecState} {k : String} {t : ℕ}
    (h : step s (Ev.start k t) = some s') :
    s.running k = none ∧ ∃ rest, s.queue k = t :: rest ∧
      s' = { s with
              queue := Function.update s.queue k rest,
              running := Function.update s.running k (some t) } := by
  simp only [step] at h
  split at h
  next t' rest hr hq =>
      split at h
      next ht =>
          subst ht
          cases h
          exact ⟨hr, rest, hq, rfl⟩
      next => cases h
  next => cases h

lemma step_finish_some {s s' : ExecState} {k : String} {t : ℕ}
    (h : step s (Ev.finish k t) = some s') :
    s.running k = some t ∧
      s' = { s with
              running := Function.update s.running k none,
              done := Function.update s.done k (s.done k ++ [t]) } := by
  simp only [step] at h
  split at h
  next t' hr =>
      split at h
      next ht =>
          subst ht
          cases h
          exact ⟨hr, rfl⟩
      next => cases h
  next => cases h

lemma step_arrive_some {s s' : ExecState} {k : String} {t : ℕ}
    (h : step s (Ev.arrive k t) = some s') :
    s' = { s with queue := Function.update s.queue k (s.queue k ++ [t]) } := by
  simp only [step] at h
  cases h
  rfl

/-- The per-key trace only ever grows by the newly admitted tasks, at its
end: running a valid trace appends exactly the admissions of that trace. -/
lemma run_keyTrace (k : String) : ∀ (es : List Ev) (s₀ s : ExecState),
    run s₀ es = some s →
    keyTrace s k = keyTrace s₀ k ++ admissions k es := by
  intro es
  induction es with
  | nil =>
      intro s₀ s h
      cases h
      simp [admissions]
  | cons e es ih =>
      intro s₀ s h
      obtain ⟨s₁, hstep, hrun⟩ := run_cons_some h
      have H := ih s₁ s hrun
      cases e with
      | arrive k' t =>
          have hs₁ := step_arrive_some hstep
          subst hs₁
          by_cases hk : k' = k
          · subst hk
            rw [H]
            simp [keyTrace, admissions, Function.update_same]
          · rw [H]
            simp [keyTrace, admissions, hk, Function.update_noteq (Ne.symm hk)]
      | start k' t =>
          obtain ⟨hr, rest, hq, hs₁⟩ := step_start_some hstep
          subst hs₁
          by_cases hk : k' = k
          · subst hk
            rw [H]
            simp [keyTrace, admissions, Function.update_same, hr, hq]
          · rw [H]
            simp [keyTrace, admissions, hk, Function.update_noteq (Ne.symm hk)]
      | finish k' t =>
          obtain ⟨hr, hs₁⟩ := step_finish_some hstep
          subst hs₁
          by_cases hk : k' = k
          · subst hk
            rw [H]
            simp [keyTrace, admissions, Function.update_same, hr]
          · rw [H]
            simp [keyTrace, admissions, hk, Function.update_noteq (Ne.symm hk)]

/-- While no `finish` event for key `k` occurs, the task running on `k` stays
running: its execution window has not closed. -/
lemma running_preserved (k : String) (t : ℕ) : ∀ (es : List Ev) (s s' : ExecState),
    run s es = some s' → s.running k = some t →
    (∀ t', Ev.finish k t' ∉ es) → s'.running k = some t := by
  intro es
  induction es with
  | nil =>
      intro s s' h hr _
      cases h
      exact hr
  | cons e es ih =>
      intro s s' h hr hnf
      obtain ⟨s₁, hstep, hrun⟩ := run_cons_some h
      have hnf' : ∀ t', Ev.finish k t' ∉ es := fun t' hmem => hnf t' (List.mem_cons_of_mem _ hmem)
      cases e with
      | arrive k' t'' =>
          have hs₁ := step_arrive_some hstep
          subst hs₁
          exact ih _ s' hrun hr hnf'
      | start k' t'' =>
          obtain ⟨hrn, rest, hq, hs₁⟩ := step_start_some hstep
          subst hs₁
          refine ih _ s' hrun ?_ hnf'
          by_cases hk : k' = k
          · subst hk
            rw [hrn] at hr
            cases hr
          · show Function.update s.running k' (some t'') k = some t
            rw [Function.update_noteq (Ne.symm hk)]
            exact hr
      | finish k' t'' =>
          have hk : k' ≠ k := by
            intro hkk
            subst hkk
            exact hnf t'' (List.mem_cons_self _ _)
          obtain ⟨hrn, hs₁⟩ := step_finish_some hstep
          subst hs₁
          refine ih _ s' hrun ?_ hnf'
          show Function.update s.running k' none k = some t
          rw [Function.update_noteq (Ne.symm hk)]
          exact hr

/-- Between two `start` events of the same key in a valid trace there is
always a `finish` event of that key: execution windows on one key never
overlap. -/
lemma two_starts_need_finish (k : String) (t₁ t₂ : ℕ) (p mid rest : List Ev) (s : ExecState)
    (h : run initState (p ++ Ev.start k t₁ :: (mid ++ Ev.start k t₂ :: rest)) = some s) :
    ∃ t, Ev.finish k t ∈ mid := by
  by_contra hno
  push_neg at hno
  rw [run_append] at h
  cases hp : run initState p with
  | none => rw [hp] at h; simp at h
  | some sp =>
      rw [hp] at h
      simp only [Option.some_bind] at h
      obtain ⟨s₁, hstep₁, hrun₁⟩ := run_cons_some h
      obtain ⟨hrn, rest₁, hq, hs₁⟩ := step_start_some hstep₁
      subst hs₁
      rw [run_append] at hrun₁
      cases hm : run _ mid with
      | none => rw [hm] at hrun₁; simp at hrun₁
      | some s₂ =>
          rw [hm] at hrun₁
          simp only [Option.some_bind] at hrun₁
          have hr₂ : s₂.running k = some t₁ := by
            refine running_preserved k t₁ mid _ s₂ hm ?_ hno
            exact Function.update_same _ _ _
          obtain ⟨s₃, hstep₂, _⟩ := run_cons_some hrun₁
          obtain ⟨hrn₂, _, _, _⟩ := step_start_some hstep₂
          rw [hr₂] at hrn₂
          cases hrn₂

/-- Events on other keys leave a key's queue, running slot and completion
list untouched. -/
lemma run_other_keys (k : String) : ∀ (es : List Ev) (s s' : ExecState),
    run s es = some s' → (∀ e ∈ es, e.key ≠ k) →
    s'.queue k = s.queue k ∧ s'.running k = s.running k ∧ s'.done k = s.done k := by
  intro es
  induction es with
  | nil =>
      intro s s' h _
      cases h
      exact ⟨rfl, rfl, rfl⟩
  | cons e es ih =>
      intro s s' h hk
      obtain ⟨s₁, hstep, hrun⟩ := run_cons_some h
      have hk' : ∀ e' ∈ es, Ev.key e' ≠ k := fun e' hmem => hk e' (List.mem_cons_of_mem _ hmem)
      have hke : Ev.key e ≠ k := hk e (List.mem_cons_self _ _)
      obtain ⟨h1, h2, h3⟩ := ih s₁ s' hrun hk'
      cases e with
      | arrive k' t =>
          have hs₁ := step_arrive_some hstep
          subst hs₁
          refine ⟨?_, h2, h3⟩
          rw [h1]
          exact Function.update_noteq (Ne.symm hke) _ _
      | start k' t =>
          obtain ⟨_, rest, _, hs₁⟩ := step_start_some hstep
          subst hs₁
          refine ⟨?_, ?_, h3⟩
          · rw [h1]
            exact Function.update_noteq (Ne.symm hke) _ _
          · rw [h2]
            exact Function.update_noteq (Ne.symm hke) _ _
      | finish k' t =>
          obtain ⟨_, hs₁⟩ := step_finish_some hstep
          subst hs₁
          refine ⟨h1, ?_, ?_⟩
          · rw [h2]
            exact Function.update_noteq (Ne.symm hke) _ _
          · rw [h3]
            exact Function.update_noteq (Ne.symm hke) _ _

/-- C1: per-instrument serialization of the (spec-modelled) per-key executor.
On every valid trace: the tasks completed for key `k` form a prefix of the
tasks admitted for `k` in admission order (N concurrent signals for the same
key complete in admission order); two execution windows for the same key
never overlap (between two `start k` events there must be a `finish k`
event); and events on other keys leave key `k`'s queue, running slot and
completion list unchanged. -/
theorem c1_per_key_serialization (es : List Ev) (s : ExecState) (k : String)
    (h : run initState es = some s) :
    (s.done k <+: admissions k es) ∧
    (∀ (p mid rest : List Ev) (t₁ t₂ : ℕ),
        es = p ++ Ev.start k t₁ :: (mid ++ Ev.start k t₂ :: rest) →
        ∃ t, Ev.finish k t ∈ mid) ∧
    (∀ (es₂ : List Ev) (s' : ExecState),
        run s es₂ = some s' → (∀ e ∈ es₂, Ev.key e ≠ k) →
        s'.queue k = s.queue k ∧ s'.running k = s.running k ∧ s'.done k = s.done k) := by
  refine ⟨?_, ?_, ?_⟩
  · have H := run_keyTrace k es initState s h
    simp only [keyTrace, initState, List.nil_append, Option.toList_none, List.append_nil] at H
    exact ⟨(s.running k).toList ++ s.queue k, H⟩
  · intro p mid rest t₁ t₂ hes
    subst hes
    exact two_starts_need_finish k t₁ t₂ p mid rest s h
  · intro es₂ s' h₂ hk
    exact run_other_keys k es₂ s s' h₂ hk

/-- Demonstration trace used by the C1 witness: two signals for the same
instrument admitted, then executed one after the other. -/
def demoTrace : List Ev :=
  [Ev.arrive "BTC_USDT" 1, Ev.arrive "BTC_USDT" 2, Ev.start "BTC_USDT" 1,
   Ev.finish "BTC_USDT" 1, Ev.start "BTC_USDT" 2, Ev.finish "BTC_USDT" 2]

/-- Witness for C1 on a concrete two-signal trace. -/
theorem c1_per_key_serialization_witness :
    ∃ s : ExecState, run initState demoTrace = some s ∧
      s.done "BTC_USDT" <+: admissions "BTC_USDT" demoTrace :=
  ⟨_, rfl, (c1_per_key_serialization demoTrace _ "BTC_USDT" rfl).1⟩

end Trading
